import Mathlib

/-!
# SafeRun x402 — formal model of the workflow orchestrator core

Shallow embedding of the SafeRun repository's core modules:

* `saferun/core/state_machine/models.py` — data model
* `saferun/core/state_machine/orchestrator.py` — workflow state machine
* `saferun/core/checkpoints/capture.py` — state serialization and hashing
* `saferun/core/artifacts/store.py` — content-addressed artifact store
* `saferun/core/rollback/reconciliation.py` — compensating transactions,
  rollback and reconciliation
* `saferun/agents/supervisor/agent.py` — approval request/response routing
* `saferun/agents/executor/agent.py` — modification application

Python `dict`s preserve insertion order, so every mapping is modelled as an
association list `List (String × _)` in insertion order.  Python `float`s in
the settlement arithmetic are modelled as rationals `ℚ`; all concrete inputs
evaluated below keep the arithmetic exact.  `datetime` values are modelled by
their ISO-8601 strings, which is how they enter serialization and hashing.
-/

namespace SafeRun

/-! ## SHA-256 (hashlib.sha256, FIPS 180-4), executable over byte lists -/

/-- 2^32, the word modulus for SHA-256 arithmetic. -/
def M32 : ℕ := 4294967296

/-- Rotate a 32-bit word right by `k`. -/
def rotw (k x : ℕ) : ℕ := (x >>> k) ||| ((x <<< (32 - k)) % M32)

/-- The big Σ₀ function of the SHA-256 round. -/
def sigU0 (x : ℕ) : ℕ := (rotw 2 x) ^^^ (rotw 13 x) ^^^ (rotw 22 x)

/-- The big Σ₁ function of the SHA-256 round. -/
def sigU1 (x : ℕ) : ℕ := (rotw 6 x) ^^^ (rotw 11 x) ^^^ (rotw 25 x)

/-- The small σ₀ function of the message schedule. -/
def sigL0 (x : ℕ) : ℕ := (rotw 7 x) ^^^ (rotw 18 x) ^^^ (x >>> 3)

/-- The small σ₁ function of the message schedule. -/
def sigL1 (x : ℕ) : ℕ := (rotw 17 x) ^^^ (rotw 19 x) ^^^ (x >>> 10)

/-- SHA-256 choice function; complement is taken within 32 bits. -/
def chW (x y z : ℕ) : ℕ := (x &&& y) ^^^ ((x ^^^ (M32 - 1)) &&& z)

/-- SHA-256 majority function. -/
def majW (x y z : ℕ) : ℕ := (x &&& y) ^^^ (x &&& z) ^^^ (y &&& z)

/-- Primality by trial division, for generating the SHA-256 constants. -/
def isPrimeB (n : ℕ) : Bool :=
  2 ≤ n && ((List.range n).drop 2).all (fun d => d * d > n || n % d ≠ 0)

/-- The largest `x` with `f x ≤ n` found by fuelled binary search on
`[lo, hi)`; for monotone `f` with `f lo ≤ n` and enough fuel this is the
exact inverse, used below for integer square and cube roots. -/
def invSearch (f : ℕ → ℕ) (n : ℕ) : ℕ → ℕ → ℕ → ℕ
  | 0, lo, _ => lo
  | fuel + 1, lo, hi =>
      let mid := (lo + hi) / 2
      if mid = lo then lo
      else if f mid ≤ n then invSearch f n fuel mid hi
      else invSearch f n fuel lo mid

/-- Integer cube root. -/
def icbrt (n : ℕ) : ℕ := invSearch (fun x => x * x * x) n 128 0 (n + 1)

/-- Integer square root. -/
def isqrtN (n : ℕ) : ℕ := invSearch (fun x => x * x) n 128 0 (n + 1)

/-- The first 64 primes (311 is the 64th). -/
def sha256Primes : List ℕ := (List.range 312).filter isPrimeB

/-- The 64 SHA-256 round constants of FIPS 180-4: the first 32 bits of the
fractional parts of the cube roots of the first 64 primes, i.e.
`⌊p^(1/3)·2^32⌋ mod 2^32 = icbrt(p·2^96) mod 2^32`. -/
def sha256K : List ℕ := sha256Primes.map (fun p => icbrt (p * 2 ^ 96) % M32)

/-- The initial SHA-256 hash value of FIPS 180-4: the first 32 bits of the
fractional parts of the square roots of the first 8 primes. -/
def sha256H0 : List ℕ :=
  (sha256Primes.take 8).map (fun p => isqrtN (p * 2 ^ 64) % M32)

/-- `n` bytes of `v`, big-endian. -/
def beBytes : ℕ → ℕ → List ℕ
  | 0, _ => []
  | n + 1, v => beBytes n (v / 256) ++ [v % 256]

/-- SHA-256 message padding: `0x80`, zeros, then the 64-bit bit length. -/
def sha256Pad (ms : List ℕ) : List ℕ :=
  let L := ms.length
  let k := (64 - ((L + 9) % 64)) % 64
  ms ++ 0x80 :: (List.replicate k 0 ++ beBytes 8 (8 * L))

/-- Pack big-endian bytes into 32-bit words. -/
def toWords : List ℕ → List ℕ
  | b0 :: b1 :: b2 :: b3 :: rest =>
      (((b0 * 256 + b1) * 256 + b2) * 256 + b3) :: toWords rest
  | _ => []

/-- Split a word list into 16-word blocks (padding makes the length a
multiple of 16; a shorter tail cannot occur and is dropped). -/
def splitWords : List ℕ → List (List ℕ)
  | w0 :: w1 :: w2 :: w3 :: w4 :: w5 :: w6 :: w7 ::
    w8 :: w9 :: w10 :: w11 :: w12 :: w13 :: w14 :: w15 :: rest =>
      [w0, w1, w2, w3, w4, w5, w6, w7,
       w8, w9, w10, w11, w12, w13, w14, w15] :: splitWords rest
  | _ => []

/-- Extend a 16-word block to the 64-word message schedule (`n` more words). -/
def extendSched : ℕ → List ℕ → List ℕ
  | 0, w => w
  | n + 1, w =>
      let i := w.length
      let nw := (sigL1 (w.getD (i - 2) 0) + w.getD (i - 7) 0 +
                 sigL0 (w.getD (i - 15) 0) + w.getD (i - 16) 0) % M32
      extendSched n (w ++ [nw])

/-- One SHA-256 compression round on the 8-word working state. -/
def compressRound (st : List ℕ) (kw : ℕ × ℕ) : List ℕ :=
  match st with
  | [a, b, c, d, e, f, g, h] =>
      let t1 := (h + sigU1 e + chW e f g + kw.1 + kw.2) % M32
      let t2 := (sigU0 a + majW a b c) % M32
      [(t1 + t2) % M32, a, b, c, (d + t1) % M32, e, f, g]
  | other => other

/-- Process one 16-word block, updating the 8-word hash state. -/
def processBlock (h : List ℕ) (block : List ℕ) : List ℕ :=
  let w := extendSched 48 block
  let st := (sha256K.zip w).foldl compressRound h
  (h.zip st).map (fun p => (p.1 + p.2) % M32)

/-- SHA-256 digest of a byte list, as eight 32-bit words. -/
def sha256Words (msg : List ℕ) : List ℕ :=
  (splitWords (toWords (sha256Pad msg))).foldl processBlock sha256H0

def hexDigit (n : ℕ) : Char :=
  if n < 10 then Char.ofNat (48 + n) else Char.ofNat (87 + n)

/-- `k` lowercase hex digits of `v`, most significant first. -/
def hexChars : ℕ → ℕ → List Char
  | 0, _ => []
  | k + 1, v => hexChars k (v / 16) ++ [hexDigit (v % 16)]

/-- Hex encoding of a SHA-256 word digest (`hexdigest()` in Python). -/
def sha256HexOfBytes (msg : List ℕ) : String :=
  String.mk ((sha256Words msg).foldr (fun w acc => hexChars 8 w ++ acc) [])

/-- UTF-8 encoding of one Unicode code point. -/
def utf8Encode (c : ℕ) : List ℕ :=
  if c < 0x80 then [c]
  else if c < 0x800 then [0xC0 + c / 64, 0x80 + c % 64]
  else if c < 0x10000 then
    [0xE0 + c / 4096, 0x80 + (c / 64) % 64, 0x80 + c % 64]
  else
    [0xF0 + c / 262144, 0x80 + (c / 4096) % 64, 0x80 + (c / 64) % 64,
     0x80 + c % 64]

/-- UTF-8 bytes of a string (`str.encode()` in Python). -/
def strBytes (s : String) : List ℕ :=
  s.data.flatMap (fun c => utf8Encode c.toNat)

/-- `hashlib.sha256(s.encode()).hexdigest()`. -/
def sha256Hex (s : String) : String := sha256HexOfBytes (strBytes s)

/-! ## JSON values and `json.dumps(obj, indent=2)`

Python values reaching `json.dumps` in `capture.py` are modelled by `JVal`.
Mappings keep insertion order (Python dicts are ordered).  The mutual
list types keep all recursion structural so that serialization reduces in
the kernel. -/

mutual
inductive JVal where
  | null
  | bool (b : Bool)
  | int (n : ℤ)
  | float (q : ℚ)
  | str (s : String)
  | arr (xs : JArr)
  | obj (kvs : JObj)

inductive JArr where
  | nil
  | cons (hd : JVal) (tl : JArr)

inductive JObj where
  | nil
  | cons (k : String) (v : JVal) (tl : JObj)
end

def JArr.ofList : List JVal → JArr
  | [] => .nil
  | x :: xs => .cons x (JArr.ofList xs)

def JObj.ofList : List (String × JVal) → JObj
  | [] => .nil
  | (k, v) :: kvs => .cons k v (JObj.ofList kvs)

/-- One escaped JSON character, per CPython's `ensure_ascii=True` encoder:
printable ASCII kept, short escapes for the usual control characters, and
`\uXXXX` (with surrogate pairs above the BMP) for everything else. -/
def escChar (c : Char) : List Char :=
  let n := c.toNat
  if c = '"' then ['\\', '"']
  else if c = '\\' then ['\\', '\\']
  else if n = 8 then ['\\', 'b']
  else if n = 9 then ['\\', 't']
  else if n = 10 then ['\\', 'n']
  else if n = 12 then ['\\', 'f']
  else if n = 13 then ['\\', 'r']
  else if 0x20 ≤ n ∧ n ≤ 0x7E then [c]
  else if n < 0x10000 then '\\' :: 'u' :: hexChars 4 n
  else
    let v := n - 0x10000
    '\\' :: 'u' :: hexChars 4 (0xD800 + v / 1024) ++
      ('\\' :: 'u' :: hexChars 4 (0xDC00 + v % 1024))

/-- A JSON string literal with quotes, as CPython renders it. -/
def jsonStr (s : String) : String :=
  "\"" ++ String.mk (s.data.flatMap escChar) ++ "\""

/-- Python `repr` of a float, modelled exactly for integral values (the only
float values appearing in inputs evaluated below); non-integral rationals get
a placeholder rendering that no theorem relies on. -/
def floatRepr (q : ℚ) : String :=
  if q.den = 1 then toString q.num ++ ".0"
  else toString q.num ++ "div" ++ toString q.den

/-- `indent * level` spaces, with `indent=2`. -/
def indentStr (lvl : ℕ) : String := String.mk (List.replicate (2 * lvl) ' ')

mutual
/-- Render a JSON value at nesting level `lvl`, exactly as
`json.dumps(obj, indent=2)` does (default separators `", "`/`": "` become
`",\n"`/`": "` under an indent). -/
def renderJ : ℕ → JVal → String
  | _, .null => "null"
  | _, .bool true => "true"
  | _, .bool false => "false"
  | _, .int n => toString n
  | _, .float q => floatRepr q
  | _, .str s => jsonStr s
  | _, .arr .nil => "[]"
  | lvl, .arr (.cons x xs) =>
      "[\n" ++ String.intercalate ",\n" (renderArr (lvl + 1) (.cons x xs)) ++
        "\n" ++ indentStr lvl ++ "]"
  | _, .obj .nil => "\x7b\x7d"
  | lvl, .obj (.cons k v kvs) =>
      "\x7b\n" ++ String.intercalate ",\n" (renderObj (lvl + 1) (.cons k v kvs)) ++
        "\n" ++ indentStr lvl ++ "\x7d"

/-- Array items, each prefixed with its indentation. -/
def renderArr : ℕ → JArr → List String
  | _, .nil => []
  | lvl, .cons x xs => (indentStr lvl ++ renderJ lvl x) :: renderArr lvl xs

/-- Object items `"key": value`, each prefixed with its indentation, in
insertion order (no `sort_keys`). -/
def renderObj : ℕ → JObj → List String
  | _, .nil => []
  | lvl, .cons k v kvs =>
      (indentStr lvl ++ jsonStr k ++ ": " ++ renderJ lvl v) :: renderObj lvl kvs
end

/-- `json.dumps(v, indent=2)`. -/
def dumps2 (v : JVal) : String := renderJ 0 v

/-! ## Data model (`saferun/core/state_machine/models.py`) -/

inductive WorkflowState where
  | INITIALIZED
  | EXECUTING
  | AWAITING_APPROVAL
  | ROLLING_BACK
  | SETTLING
  | COMPLETED
  | FAILED
deriving DecidableEq

inductive ApprovalDecision where
  | APPROVED
  | REJECTED
  | MODIFIED
deriving DecidableEq

/-- `ExecutionState`.  `timestamp` is modelled by its `isoformat()` string,
which is how it enters serialization; `resource_consumption` values are
Python floats, modelled as rationals. -/
structure ExecutionState where
  checkpoint_id : String
  timestamp : String
  agent_memory : List (String × JVal)
  api_calls : List JVal
  intermediate_outputs : List (String × JVal)
  decision_trace : List String
  resource_consumption : List (String × ℚ)

/-! ## `StateCapture` (`saferun/core/checkpoints/capture.py`) -/

/-- `StateCapture.serialize_state`: `model_dump()` produces the fields in
declaration order, the timestamp is replaced by its ISO string, and the dict
is rendered by `json.dumps(state_dict, indent=2)` — note: no `sort_keys`. -/
def serialize_state (es : ExecutionState) : String :=
  dumps2 (.obj (JObj.ofList [
    ("checkpoint_id", .str es.checkpoint_id),
    ("timestamp", .str es.timestamp),
    ("agent_memory", .obj (JObj.ofList es.agent_memory)),
    ("api_calls", .arr (JArr.ofList es.api_calls)),
    ("intermediate_outputs", .obj (JObj.ofList es.intermediate_outputs)),
    ("decision_trace", .arr (JArr.ofList (es.decision_trace.map .str))),
    ("resource_consumption",
      .obj (JObj.ofList (es.resource_consumption.map
        (fun p => (p.1, JVal.float p.2)))))]))

/-- `StateCapture.compute_state_hash`: SHA-256 hexdigest of the serialized
state. -/
def compute_state_hash (es : ExecutionState) : String :=
  sha256Hex (serialize_state es)

/-- A minimal execution state used in concrete evaluations. -/
def esMem (mem : List (String × JVal)) : ExecutionState :=
  { checkpoint_id := "c", timestamp := "t", agent_memory := mem,
    api_calls := [], intermediate_outputs := [], decision_trace := [],
    resource_consumption := [] }

/-! ## Association lists modelling Python dicts

Python dicts preserve insertion order; assignment to an existing key keeps
its position, assignment to a new key appends. -/

/-- `m[k] = v` on an insertion-ordered dict. -/
def assocSet {α : Type} : List (String × α) → String → α → List (String × α)
  | [], k, v => [(k, v)]
  | (k', v') :: rest, k, v =>
      if k' = k then (k, v) :: rest else (k', v') :: assocSet rest k v

/-- `m.get(k)` on an insertion-ordered dict. -/
def lookupA {α : Type} : List (String × α) → String → Option α
  | [], _ => none
  | (k', v') :: rest, k => if k' = k then some v' else lookupA rest k

/-- `k in m`. -/
def containsKey {α : Type} (m : List (String × α)) (k : String) : Bool :=
  (lookupA m k).isSome

/-- `del m[k]` (the key is present at most once in well-formed states). -/
def removeKey {α : Type} : List (String × α) → String → List (String × α)
  | [], _ => []
  | (k', v') :: rest, k =>
      if k' = k then rest else (k', v') :: removeKey rest k

/-! ## Remaining value types of `models.py`

Fields produced by `uuid4()` / `datetime.utcnow()` defaults are modelled as
explicit arguments of the operations that create them; timestamps are the
ISO strings. -/

structure CheckpointConfig where
  checkpoint_id : String
  name : String
  description : String
  requires_approval : Bool
  timeout_seconds : ℤ
  can_rollback : Bool

structure WorkflowConfig where
  workflow_id : String
  name : String
  description : String
  checkpoints : List CheckpointConfig
  escrow_amount : ℚ
  poster_id : String
  executor_id : String
  supervisor_id : Option String

structure CheckpointSnapshot where
  snapshot_id : String
  workflow_id : String
  checkpoint_id : String
  execution_state : ExecutionState
  approval_required : Bool
  created_at : String
  artifact_uri : Option String

structure ApprovalRequest where
  request_id : String
  workflow_id : String
  checkpoint_id : String
  snapshot_id : String
  summary : String
  context : List (String × JVal)
  created_at : String
  expires_at : Option String

structure ApprovalResponse where
  request_id : String
  decision : ApprovalDecision
  rationale : String
  modifications : Option (List (String × JVal))
  approved_by : String
  approved_at : String

structure WorkflowExecution where
  workflow_id : String
  config : WorkflowConfig
  current_state : WorkflowState
  current_checkpoint_index : ℕ
  snapshots : List CheckpointSnapshot
  approval_requests : List ApprovalRequest
  approval_responses : List ApprovalResponse
  started_at : String
  completed_at : Option String
  error_message : Option String

/-! ## `WorkflowOrchestrator` (`saferun/core/state_machine/orchestrator.py`)

The orchestrator's only state is `active_workflows`, a dict from workflow id
to `WorkflowExecution`; it is modelled as an insertion-ordered association
list.  The orchestrator is modelled with `x402_integration=None` (the
constructor default), so `create_checkpoint` skips the artifact block.
Each operation returns its Python return value paired with the updated
registry. -/

def Orchestrator : Type := List (String × WorkflowExecution)

/-- `initialize_workflow`: builds the execution in INITIALIZED and registers
it.  The source performs no validation and no duplicate check: an existing
registration under the same id is silently replaced. -/
def initialize_workflow (o : Orchestrator) (config : WorkflowConfig)
    (started_at : String) : WorkflowExecution × Orchestrator :=
  let execution : WorkflowExecution :=
    { workflow_id := config.workflow_id, config := config,
      current_state := .INITIALIZED, current_checkpoint_index := 0,
      snapshots := [], approval_requests := [], approval_responses := [],
      started_at := started_at, completed_at := none, error_message := none }
  (execution, assocSet o config.workflow_id execution)

/-- `start_execution`: INITIALIZED → EXECUTING, else `False` unchanged. -/
def start_execution (o : Orchestrator) (wid : String) : Bool × Orchestrator :=
  match lookupA o wid with
  | none => (false, o)
  | some w =>
      if w.current_state ≠ .INITIALIZED then (false, o)
      else (true, assocSet o wid { w with current_state := .EXECUTING })

/-- `create_checkpoint` (with no x402 integration): requires EXECUTING,
reads the current checkpoint config, builds the snapshot and appends it.
An out-of-range `current_checkpoint_index` raises `IndexError` in Python
before anything is mutated; that is the `none`-config branch here. -/
def create_checkpoint (o : Orchestrator) (wid : String) (es : ExecutionState)
    (sid created_at : String) : Option CheckpointSnapshot × Orchestrator :=
  match lookupA o wid with
  | none => (none, o)
  | some w =>
      if w.current_state ≠ .EXECUTING then (none, o)
      else
        match w.config.checkpoints.get? w.current_checkpoint_index with
        | none => (none, o)
        | some cc =>
            let snapshot : CheckpointSnapshot :=
              { snapshot_id := sid, workflow_id := wid,
                checkpoint_id := cc.checkpoint_id, execution_state := es,
                approval_required := cc.requires_approval,
                created_at := created_at, artifact_uri := none }
            (some snapshot,
             assocSet o wid { w with snapshots := w.snapshots ++ [snapshot] })

/-- `request_approval`: looks up the snapshot, then unconditionally sets
AWAITING_APPROVAL and appends the new request — the source checks no source
state at all. -/
def request_approval (o : Orchestrator) (wid sid summary : String)
    (context : List (String × JVal)) (rid created_at : String) :
    Option ApprovalRequest × Orchestrator :=
  match lookupA o wid with
  | none => (none, o)
  | some w =>
      match w.snapshots.find? (fun s => s.snapshot_id == sid) with
      | none => (none, o)
      | some snapshot =>
          let request : ApprovalRequest :=
            { request_id := rid, workflow_id := wid,
              checkpoint_id := snapshot.checkpoint_id, snapshot_id := sid,
              summary := summary, context := context,
              created_at := created_at, expires_at := none }
          (some request,
           assocSet o wid
             { w with current_state := .AWAITING_APPROVAL,
                      approval_requests := w.approval_requests ++ [request] })

/-- `submit_approval`: requires AWAITING_APPROVAL, appends the response
(without matching it against any request), then branches on the decision.
`some b` models a normal `return b`; `none` models the uncaught `IndexError`
of the REJECTED branch when `current_checkpoint_index` is out of range —
the response append has happened by then. -/
def submit_approval (o : Orchestrator) (wid : String)
    (response : ApprovalResponse) : Option Bool × Orchestrator :=
  match lookupA o wid with
  | none => (some false, o)
  | some w =>
      if w.current_state ≠ .AWAITING_APPROVAL then (some false, o)
      else
        let w1 := { w with
          approval_responses := w.approval_responses ++ [response] }
        match response.decision with
        | .APPROVED =>
            let idx := w1.current_checkpoint_index + 1
            let st : WorkflowState :=
              if w1.config.checkpoints.length ≤ idx then .SETTLING
              else .EXECUTING
            (some true,
             assocSet o wid
               { w1 with current_checkpoint_index := idx, current_state := st })
        | .REJECTED =>
            match w1.config.checkpoints.get? w1.current_checkpoint_index with
            | none => (none, assocSet o wid w1)
            | some cc =>
                if cc.can_rollback then
                  (some true,
                   assocSet o wid { w1 with current_state := .ROLLING_BACK })
                else
                  (some true,
                   assocSet o wid
                     { w1 with current_state := .FAILED,
                               error_message :=
                                 some "Approval rejected and rollback not permitted" })
        | .MODIFIED =>
            (some true, assocSet o wid { w1 with current_state := .EXECUTING })

/-- `complete_rollback`: no source-state check; on success decrements the
index (`max(0, i-1)`, which is truncated subtraction on ℕ) and resumes
EXECUTING, else FAILED. -/
def complete_rollback (o : Orchestrator) (wid : String) (success : Bool) :
    Bool × Orchestrator :=
  match lookupA o wid with
  | none => (false, o)
  | some w =>
      if success then
        (true,
         assocSet o wid
           { w with current_checkpoint_index := w.current_checkpoint_index - 1,
                    current_state := .EXECUTING })
      else
        (true,
         assocSet o wid
           { w with current_state := .FAILED,
                    error_message := some "Rollback failed" })

/-- `settle_workflow`: no source-state check; unconditionally sets SETTLING
(the `final_state` argument is only logged). -/
def settle_workflow (o : Orchestrator) (wid : String) : Bool × Orchestrator :=
  match lookupA o wid with
  | none => (false, o)
  | some w => (true, assocSet o wid { w with current_state := .SETTLING })

/-- `complete_workflow`: no source-state check. -/
def complete_workflow (o : Orchestrator) (wid now : String) :
    Bool × Orchestrator :=
  match lookupA o wid with
  | none => (false, o)
  | some w =>
      (true,
       assocSet o wid
         { w with current_state := .COMPLETED, completed_at := some now })

/-- `fail_workflow`: no source-state check. -/
def fail_workflow (o : Orchestrator) (wid error now : String) :
    Bool × Orchestrator :=
  match lookupA o wid with
  | none => (false, o)
  | some w =>
      (true,
       assocSet o wid
         { w with current_state := .FAILED, error_message := some error,
                  completed_at := some now })

/-- `get_workflow`. -/
def get_workflow (o : Orchestrator) (wid : String) : Option WorkflowExecution :=
  lookupA o wid

/-! ## `SupervisorAgent` (`saferun/agents/supervisor/agent.py`)

Only the request/response bookkeeping matters for the pairing claims, so the
human-readable `summary` and `context` digests are taken as given strings
instead of re-deriving them from the execution state. -/

structure Supervisor where
  supervisor_id : String
  pending_approvals : List (String × ApprovalRequest)
  approval_history : List ApprovalResponse

/-- `create_approval_request`: builds the request (its id is the fresh
`uuid4()` value, passed explicitly) and inserts it into the pending dict. -/
def create_approval_request (s : Supervisor)
    (rid wid cid sid summary : String) (context : List (String × JVal))
    (created_at : String) : ApprovalRequest × Supervisor :=
  let request : ApprovalRequest :=
    { request_id := rid, workflow_id := wid, checkpoint_id := cid,
      snapshot_id := sid, summary := summary, context := context,
      created_at := created_at, expires_at := none }
  (request, { s with pending_approvals :=
                assocSet s.pending_approvals rid request })

/-- `submit_decision`: rejects an unknown request id with `ValueError`,
otherwise builds the response, removes the request from the pending dict and
appends the response to the history. -/
def submit_decision (s : Supervisor) (rid : String)
    (decision : ApprovalDecision) (rationale approved_by : String)
    (modifications : Option (List (String × JVal))) (approved_at : String) :
    Except String (ApprovalResponse × Supervisor) :=
  if ¬ containsKey s.pending_approvals rid then
    .error ("Request " ++ rid ++ " not found")
  else
    let response : ApprovalResponse :=
      { request_id := rid, decision := decision, rationale := rationale,
        modifications := modifications, approved_by := approved_by,
        approved_at := approved_at }
    .ok (response,
         { s with pending_approvals := removeKey s.pending_approvals rid,
                  approval_history := s.approval_history ++ [response] })

/-! ## `ExecutorAgent.apply_modifications`
(`saferun/agents/executor/agent.py`, lines 371–385)

Shallow replacement keyed by field name: a key already in
`execution_context` is overwritten there; otherwise, a key already in
`intermediate_outputs` is overwritten there; any other key is silently
dropped (no report is produced). -/

def apply_modifications :
    List (String × JVal) → List (String × JVal) → List (String × JVal) →
    List (String × JVal) × List (String × JVal)
  | ctx, outs, [] => (ctx, outs)
  | ctx, outs, (k, v) :: rest =>
      if containsKey ctx k then
        apply_modifications (assocSet ctx k v) outs rest
      else if containsKey outs k then
        apply_modifications ctx (assocSet outs k v) rest
      else
        apply_modifications ctx outs rest

/-! ## Compensating transactions and rollback
(`saferun/core/rollback/reconciliation.py`)

A transaction's optional `rollback_func` is modelled by `hasFunc`, and the
outcome of invoking it (normal return vs. raised exception) by `funcOk`. -/

structure CTxn where
  transaction_id : String
  action_type : String
  hasFunc : Bool
  funcOk : Bool
  executed : Bool
  success : Bool

/-- Result of one `CompensatingTransaction.execute()` call: the returned
bool, the transaction's updated fields, and whether `rollback_func` was
actually invoked during this call. -/
structure ExecResult where
  result : Bool
  txn : CTxn
  invoked : Bool

/-- `CompensatingTransaction.execute`: an already-executed transaction
returns its recorded `success` without invoking anything; otherwise the
inverse (if registered) is invoked, the `executed`/`success` flags are set,
and the outcome is returned.  A missing `rollback_func` is a logged no-op
counted as success. -/
def CTxn.exec (t : CTxn) : ExecResult :=
  if t.executed then ⟨t.success, t, false⟩
  else if t.hasFunc then
    if t.funcOk then ⟨true, { t with executed := true, success := true }, true⟩
    else ⟨false, { t with executed := true, success := false }, true⟩
  else ⟨true, { t with executed := true, success := true }, false⟩

/-- Iterate `execute()` `n` times, counting how often the inverse ran. -/
def CTxn.execN : ℕ → CTxn → CTxn × ℕ
  | 0, t => (t, 0)
  | n + 1, t =>
      let r := t.exec
      let (t', k) := CTxn.execN n r.txn
      (t', (if r.invoked then 1 else 0) + k)

/-- Outcome of `RollbackManager.execute_rollback`: the returned
`all_successful`, the recorded `failures`, the ids whose inverse was invoked
(in call order), and the updated transaction registry. -/
structure RollbackOutcome where
  success : Bool
  failures : List String
  invocations : List String
  registry : List (String × CTxn)

/-- The loop body of `execute_rollback` over an already-reversed action
list: an unregistered id is skipped (`continue`); otherwise the
transaction's `execute()` runs and a `False` result is recorded without
stopping the iteration. -/
def rollbackGo (reg : List (String × CTxn)) :
    List String → RollbackOutcome
  | [] => ⟨true, [], [], reg⟩
  | a :: rest =>
      match lookupA reg a with
      | none => rollbackGo reg rest
      | some t =>
          let r := t.exec
          let o := rollbackGo (assocSet reg a r.txn) rest
          ⟨r.result && o.success,
           (if r.result then o.failures else a :: o.failures),
           (if r.invoked then a :: o.invocations else o.invocations),
           o.registry⟩

/-- `RollbackManager.execute_rollback`: compensating transactions run in
`reversed(actions_to_rollback)` order; `success := all_successful`. -/
def execute_rollback (reg : List (String × CTxn)) (actions : List String) :
    RollbackOutcome :=
  rollbackGo reg actions.reverse

/-! ## `ReconciliationAgent` settlement arithmetic
(`reconciliation.py`, lines 280–325); Python floats modelled as ℚ. -/

/-- `_calculate_completion`: mean of up to three capped factors, one per
non-empty contributor; `0.0` when all are empty. -/
def calculate_completion (s : ExecutionState) : ℚ :=
  let factors : List ℚ :=
    (if s.api_calls.isEmpty then []
     else [min ((s.api_calls.length : ℚ) / 10) 1]) ++
    (if s.intermediate_outputs.isEmpty then []
     else [min ((s.intermediate_outputs.length : ℚ) / 5) 1]) ++
    (if s.decision_trace.isEmpty then []
     else [min ((s.decision_trace.length : ℚ) / 10) 1])
  if factors.isEmpty then 0
  else factors.sum / (max factors.length 1 : ℚ)

/-- `_calculate_partial_payment`: `max(0, 100.0 * completion - Σ
resource_consumption)`; the base payment is the hard-coded placeholder
`100.0` and there is no upper clamp. -/
def calculate_partial_payment (s : ExecutionState) (completion : ℚ) : ℚ :=
  let base_payment : ℚ := 100
  let partial_payment := base_payment * completion
  let rollback_cost := (s.resource_consumption.map Prod.snd).sum
  max 0 (partial_payment - rollback_cost)

/-- The `recommended_payment` field of the reconciliation report built by
`reconcile_workflow` (lines 248 and 268–271). -/
def recommended_payment (s : ExecutionState) : ℚ :=
  calculate_partial_payment s (calculate_completion s)

/-- The payment the claim describes: `base_payout × ratio − Σ
resource_consumption`, clamped to the interval `[0, escrow amount]`.
Written from the spec's words, for comparison with the source's
`recommended_payment`. -/
def claimedPayment (base escrow : ℚ) (s : ExecutionState) : ℚ :=
  min (max (base * calculate_completion s -
        (s.resource_consumption.map Prod.snd).sum) 0) escrow

/-! ## `ArtifactStore` (`saferun/core/artifacts/store.py`)

The filesystem under `base_dir` is modelled as a dict from content hash
(the file name stem) to the parsed stored record. -/

structure StoredRecord where
  artifact_id : String
  uri : String
  artifact_type : String
  content_hash : String
  size_bytes : ℕ
  created_at : String
  content : String

/-- `str.split(sep)` for a one-character separator. -/
def splitOnCharList (c : Char) : List Char → List (List Char)
  | [] => [[]]
  | x :: xs =>
      match splitOnCharList c xs with
      | [] => [[]]
      | g :: gs => if x = c then [] :: g :: gs else (x :: g) :: gs

/-- `artifact_uri.split("/")[-1]` (a Python split is never empty). -/
def lastSlashSegment (s : String) : String :=
  ((splitOnCharList '/' s.data).map String.mk).getLastD ""

/-- `p` is a prefix of `s` (`str.startswith`). -/
def strStartsWith (s p : String) : Bool := p.data.isPrefixOf s.data

/-- `ArtifactStore.get`: rejects a URI without the `saferun://artifacts/`
scheme, takes the last path segment as the content hash, and returns the
parsed record from `<base_dir>/<content_hash>.json` — or `FileNotFoundError`
when absent.  The returned record is not re-hashed or verified in any way. -/
def ArtifactStore.get (files : List (String × StoredRecord))
    (artifact_uri : String) : Except String StoredRecord :=
  if ¬ strStartsWith artifact_uri "saferun://artifacts/" then
    .error ("Unsupported artifact URI: " ++ artifact_uri)
  else
    match lookupA files (lastSlashSegment artifact_uri) with
    | none => .error ("Artifact not found: " ++ artifact_uri)
    | some record => .ok record

/-- `ArtifactStore.create`: the content hash is the SHA-256 hexdigest of the
content; the file is stored under the hash. -/
def ArtifactStore.create (files : List (String × StoredRecord))
    (artifact_type content : String) (created_at : String) :
    StoredRecord × List (String × StoredRecord) :=
  let content_hash := sha256Hex content
  let record : StoredRecord :=
    { artifact_id := "artifact_" ++ String.mk (content_hash.data.take 16),
      uri := "saferun://artifacts/" ++ content_hash,
      artifact_type := artifact_type, content_hash := content_hash,
      size_bytes := (strBytes content).length, created_at := created_at,
      content := content }
  (record, assocSet files content_hash record)

/-! ## Claim C7 — the rollback loop -/

/-- A transaction registry entry is still unexecuted (as `register_action`
creates it). -/
def freshAt (reg : List (String × CTxn)) (a : String) : Bool :=
  match lookupA reg a with
  | none => true
  | some t => !t.executed

/-- The action id has a registered transaction with an actual inverse. -/
def invRegistered (reg : List (String × CTxn)) (a : String) : Bool :=
  match lookupA reg a with
  | none => false
  | some t => t.hasFunc

/-- Rolling back this action id succeeds: unregistered ids and registered
transactions without an inverse count as success. -/
def invOk (reg : List (String × CTxn)) (a : String) : Bool :=
  match lookupA reg a with
  | none => true
  | some t => !t.hasFunc || t.funcOk

/-- Rolling back this action id fails (a registered inverse that raises). -/
def invFails (reg : List (String × CTxn)) (a : String) : Bool :=
  match lookupA reg a with
  | none => false
  | some t => t.hasFunc && !t.funcOk

/-- A concrete registry: a working inverse, a failing inverse, and a
transaction with no inverse. -/
def regW : List (String × CTxn) :=
  [("a1", ⟨"a1", "api_call", true, true, false, false⟩),
   ("a2", ⟨"a2", "api_call", true, false, false, false⟩),
   ("a3", ⟨"a3", "file_write", false, true, false, false⟩)]

/-! ## Claim C4 — `initialize_workflow` performs no validation -/

/-- A configuration the spec says must be rejected: empty checkpoint list
and negative escrow amount. -/
def cfgBad : WorkflowConfig :=
  { workflow_id := "w", name := "first", description := "",
    checkpoints := [], escrow_amount := -5, poster_id := "p",
    executor_id := "e", supervisor_id := none }

def cfgBad2 : WorkflowConfig := { cfgBad with name := "second" }

/-- A one-checkpoint workflow configuration used in concrete runs. -/
def ccW : CheckpointConfig :=
  { checkpoint_id := "cp1", name := "CP1", description := "",
    requires_approval := true, timeout_seconds := 300, can_rollback := true }

def cfgW : WorkflowConfig :=
  { workflow_id := "w", name := "Test", description := "",
    checkpoints := [ccW], escrow_amount := 100, poster_id := "p",
    executor_id := "e", supervisor_id := none }

/-- The registry after initializing `cfgW` and completing the workflow. -/
def oTerm : Orchestrator :=
  (complete_workflow (initialize_workflow [] cfgW "t0").2 "w" "t1").2

/-- The COMPLETED execution registered in `oTerm`. -/
def wTerm : WorkflowExecution :=
  { workflow_id := "w", config := cfgW, current_state := .COMPLETED,
    current_checkpoint_index := 0, snapshots := [], approval_requests := [],
    approval_responses := [], started_at := "t0",
    completed_at := some "t1", error_message := none }

/-- A two-checkpoint configuration. -/
def ccW2 : CheckpointConfig := { ccW with checkpoint_id := "cp2", name := "CP2" }

def cfgW2 : WorkflowConfig := { cfgW with checkpoints := [ccW, ccW2] }

/-- A workflow awaiting approval at its first of two checkpoints. -/
def wAwait : WorkflowExecution :=
  { workflow_id := "w", config := cfgW2, current_state := .AWAITING_APPROVAL,
    current_checkpoint_index := 0, snapshots := [], approval_requests := [],
    approval_responses := [], started_at := "t0", completed_at := none,
    error_message := none }

def respA : ApprovalResponse :=
  { request_id := "r1", decision := .APPROVED, rationale := "ok",
    modifications := none, approved_by := "sup", approved_at := "t3" }

/-- The registry after initializing `cfgW`, starting it, creating a
checkpoint, and requesting approval. -/
def oAwaitTrace : Orchestrator :=
  (request_approval
    (create_checkpoint
      (start_execution (initialize_workflow [] cfgW "t0").2 "w").2
      "w" (esMem []) "s1" "t1").2
    "w" "s1" "summary" [] "r1" "t2").2

/-- A MODIFIED response carrying no modifications at all. -/
def respMod : ApprovalResponse :=
  { request_id := "r1", decision := .MODIFIED, rationale := "change",
    modifications := none, approved_by := "sup", approved_at := "t3" }

/-- Concrete inputs for the C3 witness. -/
def ctxW : List (String × JVal) := [("value", .int 100), ("kept", .str "x")]

def outsW : List (String × JVal) := [("report", .str "draft")]

def modsW : List (String × JVal) :=
  [("value", .int 10), ("report", .str "final"), ("unknown", .int 7)]

/-- A workflow awaiting approval on the one-checkpoint config. -/
def wAwait1 : WorkflowExecution :=
  { wAwait with config := cfgW }

def respMod2 : ApprovalResponse := { respMod with request_id := "r9" }

/-! ## Claim C8 — reconciliation payment -/

/-- The completion ratio as the spec words it: the mean of
`min(|api_calls|/10, 1)`, `min(|outputs|/5, 1)`, `min(|decisions|/10, 1)`
over the non-empty contributors, written out case by case; `0` when all
three are empty. -/
def specCompletion (s : ExecutionState) : ℚ :=
  let a := min ((s.api_calls.length : ℚ) / 10) 1
  let b := min ((s.intermediate_outputs.length : ℚ) / 5) 1
  let c := min ((s.decision_trace.length : ℚ) / 10) 1
  match s.api_calls.isEmpty, s.intermediate_outputs.isEmpty,
      s.decision_trace.isEmpty with
  | true, true, true => 0
  | false, true, true => a
  | true, false, true => b
  | true, true, false => c
  | false, false, true => (a + b) / 2
  | false, true, false => (a + c) / 2
  | true, false, false => (b + c) / 2
  | false, false, false => (a + b + c) / 3

/-- Five intermediate outputs, nothing else: the completion ratio is 1. -/
def sC8 : ExecutionState :=
  { checkpoint_id := "c", timestamp := "t", agent_memory := [],
    api_calls := [],
    intermediate_outputs :=
      [("o1", .int 1), ("o2", .int 2), ("o3", .int 3), ("o4", .int 4),
       ("o5", .int 5)],
    decision_trace := [], resource_consumption := [] }

/-- A stored record whose recorded hash does not match its content. -/
def recBad : StoredRecord :=
  { artifact_id := "artifact_x", uri := "saferun://artifacts/deadbeef",
    artifact_type := "checkpoint", content_hash := "deadbeef",
    size_bytes := 5, created_at := "t", content := "hello" }

/-- States reachable by a `SupervisorAgent` together with the requests
created so far.  `create` steps carry the uuid4 freshness of the new
request id; `submit` steps are exactly successful `submit_decision` calls. -/
inductive SupReach : Supervisor → List ApprovalRequest → Prop where
  | init (supervisor_id : String) : SupReach ⟨supervisor_id, [], []⟩ []
  | create (s : Supervisor) (created : List ApprovalRequest)
      (rid wid cid sid summary : String) (context : List (String × JVal))
      (t : String) :
      SupReach s created →
      rid ∉ created.map ApprovalRequest.request_id →
      SupReach (create_approval_request s rid wid cid sid summary context t).2
        (created ++
          [(create_approval_request s rid wid cid sid summary context t).1])
  | submit (s : Supervisor) (created : List ApprovalRequest) (rid : String)
      (d : ApprovalDecision) (rat approved_by : String)
      (mods : Option (List (String × JVal))) (t : String)
      (resp : ApprovalResponse) (s' : Supervisor) :
      SupReach s created →
      submit_decision s rid d rat approved_by mods t = .ok (resp, s') →
      SupReach s' created

/-- The bookkeeping invariant of a supervisor: pending keys are distinct ids
of created requests; history ids are distinct, belong to created requests,
and are no longer pending; created ids are distinct. -/
def SupInv (s : Supervisor) (created : List ApprovalRequest) : Prop :=
  (s.pending_approvals.map Prod.fst).Nodup ∧
  (∀ k ∈ s.pending_approvals.map Prod.fst,
      k ∈ created.map ApprovalRequest.request_id) ∧
  (s.approval_history.map ApprovalResponse.request_id).Nodup ∧
  (∀ rid ∈ s.approval_history.map ApprovalResponse.request_id,
      rid ∈ created.map ApprovalRequest.request_id ∧
      rid ∉ s.pending_approvals.map Prod.fst) ∧
  (created.map ApprovalRequest.request_id).Nodup

/-- The request created by the concrete supervisor run. -/
def supReq1 : ApprovalRequest :=
  (create_approval_request ⟨"sup", [], []⟩ "r1" "w" "cp" "snap" "sum" []
    "t1").1

def sup1 : Supervisor :=
  (create_approval_request ⟨"sup", [], []⟩ "r1" "w" "cp" "snap" "sum" []
    "t1").2

def supResp1 : ApprovalResponse :=
  { request_id := "r1", decision := .APPROVED, rationale := "ok",
    modifications := none, approved_by := "alice", approved_at := "t2" }

def sup2 : Supervisor :=
  { supervisor_id := "sup", pending_approvals := [],
    approval_history := [supResp1] }

/-- A response whose request id matches no request of the workflow. -/
def respGhost : ApprovalResponse :=
  { request_id := "ghost", decision := .APPROVED, rationale := "ok",
    modifications := none, approved_by := "sup", approved_at := "t3" }

/-- Modelled from the spec: "mapping keys are encoded in stable (sorted)
order".  A mapping rendered with its keys sorted, each key paired with its
(unique) value. -/
def sortObjD {α : Type} (dflt : α) (kvs : List (String × α)) :
    List (String × α) :=
  (List.insertionSort (· ≤ ·) (kvs.map Prod.fst)).map
    (fun k => (k, (lookupA kvs k).getD dflt))

/-- Modelled from the spec: `serialize_state` as §4.2 describes it, with
every mapping's keys encoded in sorted order (what `json.dumps` would
produce with `sort_keys=True`); everything else as in the implementation. -/
def serialize_state_sorted (es : ExecutionState) : String :=
  dumps2 (.obj (JObj.ofList [
    ("checkpoint_id", .str es.checkpoint_id),
    ("timestamp", .str es.timestamp),
    ("agent_memory", .obj (JObj.ofList (sortObjD .null es.agent_memory))),
    ("api_calls", .arr (JArr.ofList es.api_calls)),
    ("intermediate_outputs",
      .obj (JObj.ofList (sortObjD .null es.intermediate_outputs))),
    ("decision_trace", .arr (JArr.ofList (es.decision_trace.map .str))),
    ("resource_consumption",
      .obj (JObj.ofList ((sortObjD 0 es.resource_consumption).map
        (fun p => (p.1, JVal.float p.2)))))]))

/-- The content hash the spec's description yields: SHA-256 of the
sorted-keys serialization. -/
def compute_state_hash_sorted (es : ExecutionState) : String :=
  sha256Hex (serialize_state_sorted es)

set_option maxRecDepth 4096

/-- Sanity anchor: the FIPS 180-4 test vector for `"abc"`. -/
theorem sha256Hex_abc :
    sha256Hex "abc" =
      "ba7816bf8f01cfea414140de5dae2223b00361a396177a9cb410ff61f20015ad" := by
  decide

/-- Sanity anchor: the serializer byte-for-byte matches CPython's
`json.dumps(state_dict, indent=2)` on a two-key agent memory. -/
theorem serialize_state_sample :
    serialize_state (esMem [("a", .int 0), ("b", .int 1)]) =
      "\x7b\n  \"checkpoint_id\": \"c\",\n  \"timestamp\": \"t\",\n  \"agent_memory\": \x7b\n    \"a\": 0,\n    \"b\": 1\n  \x7d,\n  \"api_calls\": [],\n  \"intermediate_outputs\": \x7b\x7d,\n  \"decision_trace\": [],\n  \"resource_consumption\": \x7b\x7d\n\x7d" := by
  decide

/-- Sanity anchor: the composed hash matches
`hashlib.sha256(json.dumps(...).encode()).hexdigest()` computed by CPython. -/
theorem compute_state_hash_sample :
    compute_state_hash (esMem [("a", .int 0), ("b", .int 1)]) =
      "12f2adfc4c586757ae0fdec34c532faadae7e8071741a488cbdb80c1c01af34f" := by
  decide

/-! ## Association-list lemmas -/

theorem lookupA_assocSet_self {α : Type} (m : List (String × α)) (k : String)
    (v : α) : lookupA (assocSet m k v) k = some v := by
  induction m with
  | nil => simp [assocSet, lookupA]
  | cons p rest ih =>
      obtain ⟨k', v'⟩ := p
      by_cases h : k' = k
      · simp [assocSet, h, lookupA]
      · simp [assocSet, h, lookupA, ih]

theorem lookupA_assocSet_ne {α : Type} (m : List (String × α)) (k j : String)
    (v : α) (h : j ≠ k) : lookupA (assocSet m k v) j = lookupA m j := by
  have hkj : ¬ (k = j) := fun e => h e.symm
  induction m with
  | nil => simp [assocSet, lookupA, hkj]
  | cons p rest ih =>
      obtain ⟨k', v'⟩ := p
      by_cases hk : k' = k
      · subst hk
        simp [assocSet, lookupA, hkj]
      · by_cases hj : k' = j
        · simp [assocSet, hk, lookupA, hj, h]
        · simp [assocSet, hk, lookupA, hj, ih]

theorem containsKey_iff {α : Type} (m : List (String × α)) (k : String) :
    containsKey m k = true ↔ k ∈ m.map Prod.fst := by
  induction m with
  | nil => simp [containsKey, lookupA]
  | cons p rest ih =>
      obtain ⟨k', v'⟩ := p
      by_cases h : k' = k
      · simp [containsKey, lookupA, h]
      · simpa [containsKey, lookupA, h, Ne.symm h] using ih

theorem assocSet_map_fst {α : Type} (m : List (String × α)) (k : String)
    (v : α) (h : containsKey m k = true) :
    (assocSet m k v).map Prod.fst = m.map Prod.fst := by
  induction m with
  | nil => simp [containsKey, lookupA] at h
  | cons p rest ih =>
      obtain ⟨k', v'⟩ := p
      by_cases hk : k' = k
      · simp [assocSet, hk]
      · have h' : containsKey rest k = true := by
          simpa [containsKey, lookupA, hk] using h
        simp [assocSet, hk, ih h']

theorem containsKey_congr {α β : Type} {m₁ : List (String × α)}
    {m₂ : List (String × β)} (h : m₁.map Prod.fst = m₂.map Prod.fst)
    (k : String) : containsKey m₁ k = containsKey m₂ k := by
  by_cases h₁ : containsKey m₁ k = true
  · have := (containsKey_iff m₁ k).mp h₁
    rw [h₁, Eq.symm ((containsKey_iff m₂ k).mpr (h ▸ this))]
  · have h₂ : ¬ containsKey m₂ k = true := fun hc =>
      h₁ ((containsKey_iff m₁ k).mpr (h ▸ (containsKey_iff m₂ k).mp hc))
    rw [Bool.not_eq_true] at h₁ h₂
    rw [h₁, h₂]

/-! ## Claim C10 — compensating transactions run their inverse at most once -/

theorem CTxn.exec_txn_executed (t : CTxn) : (t.exec).txn.executed = true := by
  unfold CTxn.exec
  split_ifs with h1 h2 h3 <;> simp [h1]

theorem CTxn.exec_of_executed (t : CTxn) (h : t.executed = true) :
    t.exec = ⟨t.success, t, false⟩ := by
  unfold CTxn.exec
  simp [h]

theorem CTxn.exec_result_eq_success (t : CTxn) :
    (t.exec).txn.success = (t.exec).result := by
  unfold CTxn.exec
  split_ifs <;> simp

theorem CTxn.execN_of_executed (n : ℕ) (t : CTxn) (h : t.executed = true) :
    CTxn.execN n t = (t, 0) := by
  induction n with
  | zero => rfl
  | succ m ih => simp [CTxn.execN, CTxn.exec_of_executed t h, ih]

/-- C10.  For every compensating transaction, the registered inverse runs at
most once across any number of `execute()` calls: over `n` repetitions the
total number of inverse invocations is at most one, and once a call has
completed, each later `execute()` call returns the recorded `success` value
without invoking the inverse (the transaction is left unchanged). -/
theorem claim_C10 (t : CTxn) (n : ℕ) :
    (CTxn.execN n t).2 ≤ 1 ∧
    (t.exec.txn).exec = ⟨t.exec.result, t.exec.txn, false⟩ := by
  constructor
  · cases n with
    | zero => simp [CTxn.execN]
    | succ m =>
        have h0 : CTxn.execN m (t.exec).txn = ((t.exec).txn, 0) :=
          CTxn.execN_of_executed m _ (CTxn.exec_txn_executed t)
        simp only [CTxn.execN, h0]
        split <;> simp
  · rw [CTxn.exec_of_executed _ (CTxn.exec_txn_executed t),
        CTxn.exec_result_eq_success]

theorem CTxn.exec_of_fresh (t : CTxn) (h : t.executed = false) :
    t.exec = ⟨!t.hasFunc || t.funcOk,
              { t with executed := true, success := !t.hasFunc || t.funcOk },
              t.hasFunc⟩ := by
  unfold CTxn.exec
  rcases hf : t.hasFunc with _ | _ <;> rcases ho : t.funcOk with _ | _ <;>
    simp [h, hf, ho]

theorem list_all_congr {α : Type} {l : List α} {p q : α → Bool}
    (h : ∀ a ∈ l, p a = q a) : l.all p = l.all q := by
  induction l with
  | nil => rfl
  | cons x xs ih =>
      simp only [List.all_cons, h x (List.mem_cons_self x xs),
        ih (fun a ha => h a (List.mem_cons_of_mem x ha))]

/-- Unfolding equation for the rollback loop: unregistered action id. -/
theorem rollbackGo_cons_none (reg : List (String × CTxn)) (a : String)
    (rest : List String) (h : lookupA reg a = none) :
    rollbackGo reg (a :: rest) = rollbackGo reg rest := by
  simp only [rollbackGo, h]

/-- Unfolding equation for the rollback loop: registered action id. -/
theorem rollbackGo_cons_some (reg : List (String × CTxn)) (a : String)
    (rest : List String) (t : CTxn) (h : lookupA reg a = some t) :
    rollbackGo reg (a :: rest) =
      ⟨(t.exec).result &&
          (rollbackGo (assocSet reg a (t.exec).txn) rest).success,
       (if (t.exec).result then
          (rollbackGo (assocSet reg a (t.exec).txn) rest).failures
        else a :: (rollbackGo (assocSet reg a (t.exec).txn) rest).failures),
       (if (t.exec).invoked then
          a :: (rollbackGo (assocSet reg a (t.exec).txn) rest).invocations
        else (rollbackGo (assocSet reg a (t.exec).txn) rest).invocations),
       (rollbackGo (assocSet reg a (t.exec).txn) rest).registry⟩ := by
  simp only [rollbackGo, h]

theorem rollbackGo_spec (l : List String) :
    ∀ reg : List (String × CTxn), l.Nodup →
    (∀ a ∈ l, freshAt reg a = true) →
    (rollbackGo reg l).success = l.all (invOk reg) ∧
    (rollbackGo reg l).invocations = l.filter (invRegistered reg) ∧
    (rollbackGo reg l).failures = l.filter (invFails reg) := by
  induction l with
  | nil => intro reg _ _; simp [rollbackGo]
  | cons a rest ih =>
      intro reg hnd hfresh
      have hna : a ∉ rest := (List.nodup_cons.mp hnd).1
      have hndr : rest.Nodup := (List.nodup_cons.mp hnd).2
      cases h : lookupA reg a with
      | none =>
          have IH := ih reg hndr
            (fun b hb => hfresh b (List.mem_cons_of_mem a hb))
          rw [rollbackGo_cons_none reg a rest h]
          refine ⟨?_, ?_, ?_⟩
          · rw [IH.1, List.all_cons]
            simp [invOk, h]
          · rw [IH.2.1, List.filter_cons]
            simp [invRegistered, h]
          · rw [IH.2.2, List.filter_cons]
            simp [invFails, h]
      | some t =>
          have ht : t.executed = false := by
            have := hfresh a (List.mem_cons_self a rest)
            simpa [freshAt, h] using this
          have hlk : ∀ b ∈ rest, lookupA (assocSet reg a (t.exec).txn) b =
              lookupA reg b := fun b hb =>
            lookupA_assocSet_ne reg a b _ (fun hba => hna (hba ▸ hb))
          have hfresh' : ∀ b ∈ rest,
              freshAt (assocSet reg a (t.exec).txn) b = true := fun b hb => by
            have hb' := hfresh b (List.mem_cons_of_mem a hb)
            simp only [freshAt] at hb' ⊢
            rw [hlk b hb]
            exact hb'
          have IH := ih (assocSet reg a (t.exec).txn) hndr hfresh'
          have hall : rest.all (invOk (assocSet reg a (t.exec).txn)) =
              rest.all (invOk reg) := by
            refine list_all_congr (fun b hb => ?_)
            simp only [invOk]
            rw [hlk b hb]
          have hreg : rest.filter (invRegistered (assocSet reg a (t.exec).txn)) =
              rest.filter (invRegistered reg) := by
            refine List.filter_congr (fun b hb => ?_)
            simp only [invRegistered]
            rw [hlk b hb]
          have hfail : rest.filter (invFails (assocSet reg a (t.exec).txn)) =
              rest.filter (invFails reg) := by
            refine List.filter_congr (fun b hb => ?_)
            simp only [invFails]
            rw [hlk b hb]
          rw [rollbackGo_cons_some reg a rest t h]
          refine ⟨?_, ?_, ?_⟩
          · dsimp only
            rw [IH.1, hall, List.all_cons]
            rcases hf : t.hasFunc with _ | _ <;>
              rcases hk : t.funcOk with _ | _ <;>
                simp [CTxn.exec_of_fresh t ht, invOk, h, hf, hk]
          · dsimp only
            rw [IH.2.1, hreg, List.filter_cons]
            rcases hf : t.hasFunc with _ | _ <;>
              simp [CTxn.exec_of_fresh t ht, invRegistered, h, hf]
          · dsimp only
            rw [IH.2.2, hfail, List.filter_cons]
            rcases hf : t.hasFunc with _ | _ <;>
              rcases hk : t.funcOk with _ | _ <;>
                simp [CTxn.exec_of_fresh t ht, invFails, h, hf, hk]

/-- C7.  With a freshly-registered registry and distinct action ids,
`execute_rollback` invokes each registered inverse exactly once, iterating
the ids in reverse order of the given list; ids without a registered inverse
(or without any registered transaction) are skipped and counted as success;
a failing inverse does not stop the iteration (later ids are still invoked
and recorded); and the reported success is true iff every rolled-back id
succeeded. -/
theorem claim_C7 (reg : List (String × CTxn)) (actions : List String)
    (hfresh : ∀ a ∈ actions, freshAt reg a = true)
    (hnd : actions.Nodup) :
    (execute_rollback reg actions).invocations =
        actions.reverse.filter (invRegistered reg) ∧
    ((execute_rollback reg actions).success = true ↔
        ∀ a ∈ actions, invOk reg a = true) ∧
    (execute_rollback reg actions).failures =
        actions.reverse.filter (invFails reg) := by
  have h := rollbackGo_spec actions.reverse reg
    (List.nodup_reverse.mpr hnd)
    (fun a ha => hfresh a (List.mem_reverse.mp ha))
  unfold execute_rollback
  refine ⟨h.2.1, ?_, h.2.2⟩
  rw [h.1, List.all_eq_true]
  constructor
  · intro hall a ha
    exact hall a (List.mem_reverse.mpr ha)
  · intro hall a ha
    exact hall a (List.mem_reverse.mp ha)

/-- Witness for C7 at a concrete registry and action list (the unregistered
id `"a4"` included). -/
theorem claim_C7_witness :
    (execute_rollback regW ["a1", "a2", "a3", "a4"]).invocations =
        (["a1", "a2", "a3", "a4"].reverse.filter (invRegistered regW)) ∧
    ((execute_rollback regW ["a1", "a2", "a3", "a4"]).success = true ↔
        ∀ a ∈ ["a1", "a2", "a3", "a4"], invOk regW a = true) ∧
    (execute_rollback regW ["a1", "a2", "a3", "a4"]).failures =
        (["a1", "a2", "a3", "a4"].reverse.filter (invFails regW)) :=
  claim_C7 regW ["a1", "a2", "a3", "a4"] (by decide) (by decide)

/-- C4 (code behaviour at the failing input).  `initialize_workflow` accepts
a configuration with an empty checkpoint list and a negative escrow amount,
creates the execution in INITIALIZED, and re-initializing the same workflow
id silently replaces the previous registration instead of failing with
`DuplicateWorkflow`. -/
theorem claim_C4_code_behavior :
    (initialize_workflow [] cfgBad "t0").1.current_state =
        WorkflowState.INITIALIZED ∧
    (get_workflow (initialize_workflow [] cfgBad "t0").2 "w").map
        (fun w => w.current_state) = some WorkflowState.INITIALIZED ∧
    (get_workflow
        (initialize_workflow (initialize_workflow [] cfgBad "t0").2
          cfgBad2 "t2").2 "w").map (fun w => w.config.name) = some "second" ∧
    cfgBad.checkpoints = [] ∧ cfgBad.escrow_amount < 0 :=
  ⟨rfl, rfl, rfl, rfl, by norm_num [cfgBad]⟩

/-! ## Claims C1/C2 — transition guards of the orchestrator -/

/-- C1 as amended.  The three guarded operations (`start_execution`,
`create_checkpoint`, `submit_approval`) reject calls from illegal source
states by returning `False`/`None` with the registry unchanged (there is no
`InvalidTransition` error value in the source); but `settle_workflow`,
`complete_rollback`, `complete_workflow`, `fail_workflow` and
`request_approval` perform no source-state check at all, so they succeed
from every state — including the terminal states COMPLETED and FAILED. -/
theorem claim_C1_amended (o : Orchestrator) (wid : String)
    (w : WorkflowExecution) (hw : lookupA o wid = some w) :
    (w.current_state ≠ .INITIALIZED → start_execution o wid = (false, o)) ∧
    (w.current_state ≠ .EXECUTING →
      ∀ es sid t, create_checkpoint o wid es sid t = (none, o)) ∧
    (w.current_state ≠ .AWAITING_APPROVAL →
      ∀ r, submit_approval o wid r = (some false, o)) ∧
    settle_workflow o wid =
      (true, assocSet o wid { w with current_state := .SETTLING }) ∧
    (∀ success, (complete_rollback o wid success).1 = true) ∧
    (∀ now, (complete_workflow o wid now).1 = true) ∧
    (∀ err now, (fail_workflow o wid err now).1 = true) ∧
    (∀ sid summary ctx rid t,
      (w.snapshots.find? (fun s => s.snapshot_id == sid)).isSome →
      ((request_approval o wid sid summary ctx rid t).1).isSome) := by
  refine ⟨?_, ?_, ?_, ?_, ?_, ?_, ?_, ?_⟩
  · intro hst
    unfold start_execution
    rw [hw]
    simp [hst]
  · intro hst es sid t
    unfold create_checkpoint
    rw [hw]
    simp [hst]
  · intro hst r
    unfold submit_approval
    rw [hw]
    simp [hst]
  · unfold settle_workflow
    rw [hw]
  · intro success
    unfold complete_rollback
    rw [hw]
    cases success <;> simp
  · intro now
    unfold complete_workflow
    rw [hw]
  · intro err now
    unfold fail_workflow
    rw [hw]
  · intro sid summary ctx rid t hsnap
    unfold request_approval
    rw [hw]
    cases hs : w.snapshots.find? (fun s => s.snapshot_id == sid) with
    | none => rw [hs] at hsnap; simp at hsnap
    | some snapshot => simp [hs]

/-- Witness for the amended C1 at the concrete terminal registry `oTerm`. -/
theorem claim_C1_witness :
    (wTerm.current_state ≠ .INITIALIZED →
      start_execution oTerm "w" = (false, oTerm)) ∧
    (wTerm.current_state ≠ .EXECUTING →
      ∀ es sid t, create_checkpoint oTerm "w" es sid t = (none, oTerm)) ∧
    (wTerm.current_state ≠ .AWAITING_APPROVAL →
      ∀ r, submit_approval oTerm "w" r = (some false, oTerm)) ∧
    settle_workflow oTerm "w" =
      (true, assocSet oTerm "w" { wTerm with current_state := .SETTLING }) ∧
    (∀ success, (complete_rollback oTerm "w" success).1 = true) ∧
    (∀ now, (complete_workflow oTerm "w" now).1 = true) ∧
    (∀ err now, (fail_workflow oTerm "w" err now).1 = true) ∧
    (∀ sid summary ctx rid t,
      (wTerm.snapshots.find? (fun s => s.snapshot_id == sid)).isSome →
      ((request_approval oTerm "w" sid summary ctx rid t).1).isSome) :=
  claim_C1_amended oTerm "w" wTerm rfl

/-- Counterexample to C1 as stated: a COMPLETED (terminal) workflow does not
reject `settle_workflow`; the call returns `True` and moves the workflow's
visible state back to SETTLING. -/
theorem claim_C1_counterexample :
    (get_workflow oTerm "w").map (fun w => w.current_state) =
        some WorkflowState.COMPLETED ∧
    (settle_workflow oTerm "w").1 = true ∧
    (get_workflow (settle_workflow oTerm "w").2 "w").map
        (fun w => w.current_state) = some WorkflowState.SETTLING :=
  ⟨rfl, rfl, rfl⟩

/-- C2.  From AWAITING_APPROVAL (with the checkpoint index in range, as
invariant I1 guarantees there), an APPROVED response is appended, the index
increments by exactly one, and the workflow moves to SETTLING exactly when
the incremented index equals the number of checkpoints, to EXECUTING
otherwise. -/
theorem claim_C2 (o : Orchestrator) (wid : String) (w : WorkflowExecution)
    (resp : ApprovalResponse) (hw : lookupA o wid = some w)
    (hst : w.current_state = .AWAITING_APPROVAL)
    (hd : resp.decision = .APPROVED)
    (hidx : w.current_checkpoint_index < w.config.checkpoints.length) :
    submit_approval o wid resp =
      (some true,
       assocSet o wid
         { w with
             approval_responses := w.approval_responses ++ [resp],
             current_checkpoint_index := w.current_checkpoint_index + 1,
             current_state :=
               if w.current_checkpoint_index + 1 =
                   w.config.checkpoints.length
               then .SETTLING else .EXECUTING }) := by
  unfold submit_approval
  rw [hw]
  by_cases he : w.current_checkpoint_index + 1 = w.config.checkpoints.length
  · have hle : w.config.checkpoints.length ≤ w.current_checkpoint_index + 1 :=
      he.ge
    simp [hst, hd, he, hle]
  · have hlt : w.current_checkpoint_index + 1 <
        w.config.checkpoints.length :=
      Nat.lt_of_le_of_ne (Nat.succ_le_of_lt hidx) he
    simp [hst, hd, he, Nat.not_le.mpr hlt]

/-- Witness for C2 at a concrete awaiting workflow. -/
theorem claim_C2_witness :
    submit_approval [("w", wAwait)] "w" respA =
      (some true,
       assocSet [("w", wAwait)] "w"
         { wAwait with
             approval_responses := wAwait.approval_responses ++ [respA],
             current_checkpoint_index := wAwait.current_checkpoint_index + 1,
             current_state :=
               if wAwait.current_checkpoint_index + 1 =
                   wAwait.config.checkpoints.length
               then .SETTLING else .EXECUTING }) :=
  claim_C2 [("w", wAwait)] "w" wAwait respA rfl rfl rfl (by decide)

/-! ## Claim C3 — MODIFIED responses and modification application -/

theorem applyMods_keys (mods : List (String × JVal)) :
    ∀ ctx outs : List (String × JVal),
    (apply_modifications ctx outs mods).1.map Prod.fst = ctx.map Prod.fst ∧
    (apply_modifications ctx outs mods).2.map Prod.fst = outs.map Prod.fst := by
  induction mods with
  | nil => intro ctx outs; exact ⟨rfl, rfl⟩
  | cons kv rest ih =>
      intro ctx outs
      obtain ⟨k, v⟩ := kv
      by_cases hc : containsKey ctx k = true
      · have h := ih (assocSet ctx k v) outs
        simp only [apply_modifications, hc, if_true]
        exact ⟨h.1.trans (assocSet_map_fst ctx k v hc), h.2⟩
      · by_cases ho : containsKey outs k = true
        · have h := ih ctx (assocSet outs k v)
          simp only [apply_modifications, hc, ho, if_true, if_false,
            Bool.false_eq_true]
          exact ⟨h.1, h.2.trans (assocSet_map_fst outs k v ho)⟩
        · have h := ih ctx outs
          simp only [apply_modifications, hc, ho, if_false,
            Bool.false_eq_true]
          exact h

theorem applyMods_lookup_notmem (mods : List (String × JVal)) :
    ∀ (ctx outs : List (String × JVal)) (k : String),
    k ∉ mods.map Prod.fst →
    lookupA (apply_modifications ctx outs mods).1 k = lookupA ctx k ∧
    lookupA (apply_modifications ctx outs mods).2 k = lookupA outs k := by
  induction mods with
  | nil => intro ctx outs k _; exact ⟨rfl, rfl⟩
  | cons kv rest ih =>
      intro ctx outs k hk
      obtain ⟨k₀, v₀⟩ := kv
      have hne : k ≠ k₀ := fun e => hk (by simp [e])
      have hrest : k ∉ rest.map Prod.fst := fun e =>
        hk (List.mem_cons_of_mem _ e)
      by_cases hc : containsKey ctx k₀ = true
      · have h := ih (assocSet ctx k₀ v₀) outs k hrest
        simp only [apply_modifications, hc, if_true]
        exact ⟨h.1.trans (lookupA_assocSet_ne ctx k₀ k v₀ hne), h.2⟩
      · by_cases ho : containsKey outs k₀ = true
        · have h := ih ctx (assocSet outs k₀ v₀) k hrest
          simp only [apply_modifications, hc, ho, if_true, if_false,
            Bool.false_eq_true]
          exact ⟨h.1, h.2.trans (lookupA_assocSet_ne outs k₀ k v₀ hne)⟩
        · have h := ih ctx outs k hrest
          simp only [apply_modifications, hc, ho, if_false,
            Bool.false_eq_true]
          exact h

theorem applyMods_lookup_ctx (mods : List (String × JVal)) :
    ∀ (ctx outs : List (String × JVal)) (k : String) (v : JVal),
    (mods.map Prod.fst).Nodup → (k, v) ∈ mods → containsKey ctx k = true →
    lookupA (apply_modifications ctx outs mods).1 k = some v := by
  induction mods with
  | nil => intro ctx outs k v _ hmem; cases hmem
  | cons kv rest ih =>
      intro ctx outs k v hnd hmem hc
      obtain ⟨k₀, v₀⟩ := kv
      have hnd' : (rest.map Prod.fst).Nodup :=
        (List.nodup_cons.mp (by simpa using hnd)).2
      rcases List.mem_cons.mp hmem with heq | hmem'
      · rw [Prod.mk.injEq] at heq
        obtain ⟨hk, hv⟩ := heq
        subst hk; subst hv
        have hknotin : k ∉ rest.map Prod.fst :=
          (List.nodup_cons.mp (by simpa using hnd)).1
        simp only [apply_modifications, hc, if_true]
        exact ((applyMods_lookup_notmem rest (assocSet ctx k v) outs k
          hknotin).1).trans (lookupA_assocSet_self ctx k v)
      · by_cases hc₀ : containsKey ctx k₀ = true
        · have hck : containsKey (assocSet ctx k₀ v₀ : List (String × JVal)) k =
              containsKey ctx k :=
            containsKey_congr (assocSet_map_fst ctx k₀ v₀ hc₀) k
          simp only [apply_modifications, hc₀, if_true]
          exact ih (assocSet ctx k₀ v₀) outs k v hnd' hmem' (hck.trans hc)
        · by_cases ho₀ : containsKey outs k₀ = true
          · simp only [apply_modifications, hc₀, ho₀, if_true, if_false,
              Bool.false_eq_true]
            exact ih ctx (assocSet outs k₀ v₀) k v hnd' hmem' hc
          · simp only [apply_modifications, hc₀, ho₀, if_false,
              Bool.false_eq_true]
            exact ih ctx outs k v hnd' hmem' hc

theorem applyMods_lookup_outs (mods : List (String × JVal)) :
    ∀ (ctx outs : List (String × JVal)) (k : String) (v : JVal),
    (mods.map Prod.fst).Nodup → (k, v) ∈ mods →
    containsKey ctx k = false → containsKey outs k = true →
    lookupA (apply_modifications ctx outs mods).2 k = some v := by
  induction mods with
  | nil => intro ctx outs k v _ hmem; cases hmem
  | cons kv rest ih =>
      intro ctx outs k v hnd hmem hc ho
      obtain ⟨k₀, v₀⟩ := kv
      have hnd' : (rest.map Prod.fst).Nodup :=
        (List.nodup_cons.mp (by simpa using hnd)).2
      rcases List.mem_cons.mp hmem with heq | hmem'
      · rw [Prod.mk.injEq] at heq
        obtain ⟨hk, hv⟩ := heq
        subst hk; subst hv
        have hknotin : k ∉ rest.map Prod.fst :=
          (List.nodup_cons.mp (by simpa using hnd)).1
        simp only [apply_modifications, hc, ho, if_true, if_false,
          Bool.false_eq_true]
        exact ((applyMods_lookup_notmem rest ctx (assocSet outs k v) k
          hknotin).2).trans (lookupA_assocSet_self outs k v)
      · by_cases hc₀ : containsKey ctx k₀ = true
        · have hck : containsKey (assocSet ctx k₀ v₀ : List (String × JVal)) k =
              containsKey ctx k :=
            containsKey_congr (assocSet_map_fst ctx k₀ v₀ hc₀) k
          simp only [apply_modifications, hc₀, if_true]
          exact ih (assocSet ctx k₀ v₀) outs k v hnd' hmem'
            (hck.trans hc) ho
        · by_cases ho₀ : containsKey outs k₀ = true
          · have hok : containsKey (assocSet outs k₀ v₀ : List (String × JVal)) k =
                containsKey outs k :=
              containsKey_congr (assocSet_map_fst outs k₀ v₀ ho₀) k
            simp only [apply_modifications, hc₀, ho₀, if_true, if_false,
              Bool.false_eq_true]
            exact ih ctx (assocSet outs k₀ v₀) k v hnd' hmem' hc
              (hok.trans ho)
          · simp only [apply_modifications, hc₀, ho₀, if_false,
              Bool.false_eq_true]
            exact ih ctx outs k v hnd' hmem' hc ho

/-- C3 as amended.  The orchestrator accepts a MODIFIED response regardless
of its modifications (even absent or empty), records it, and transitions to
EXECUTING without applying anything.  Modification application lives in
`ExecutorAgent.apply_modifications`: shallow replacement keyed by field
name; a key already in the execution context is overwritten there,
otherwise a key already in the intermediate outputs is overwritten there;
unknown keys are silently dropped — not reported — and no new keys are ever
introduced. -/
theorem claim_C3_amended (o : Orchestrator) (wid : String)
    (w : WorkflowExecution) (resp : ApprovalResponse)
    (hw : lookupA o wid = some w)
    (hst : w.current_state = .AWAITING_APPROVAL)
    (hd : resp.decision = .MODIFIED)
    (ctx outs mods : List (String × JVal))
    (hnd : (mods.map Prod.fst).Nodup)
    (k₁ : String) (v₁ : JVal) (hm₁ : (k₁, v₁) ∈ mods)
    (hc₁ : containsKey ctx k₁ = true)
    (k₂ : String) (v₂ : JVal) (hm₂ : (k₂, v₂) ∈ mods)
    (hc₂ : containsKey ctx k₂ = false) (ho₂ : containsKey outs k₂ = true) :
    submit_approval o wid resp =
      (some true,
       assocSet o wid
         { w with approval_responses := w.approval_responses ++ [resp],
                  current_state := .EXECUTING }) ∧
    (apply_modifications ctx outs mods).1.map Prod.fst = ctx.map Prod.fst ∧
    (apply_modifications ctx outs mods).2.map Prod.fst = outs.map Prod.fst ∧
    lookupA (apply_modifications ctx outs mods).1 k₁ = some v₁ ∧
    lookupA (apply_modifications ctx outs mods).2 k₂ = some v₂ ∧
    (∀ k, k ∉ mods.map Prod.fst →
      lookupA (apply_modifications ctx outs mods).1 k = lookupA ctx k ∧
      lookupA (apply_modifications ctx outs mods).2 k = lookupA outs k) := by
  refine ⟨?_, (applyMods_keys mods ctx outs).1, (applyMods_keys mods ctx outs).2,
    applyMods_lookup_ctx mods ctx outs k₁ v₁ hnd hm₁ hc₁,
    applyMods_lookup_outs mods ctx outs k₂ v₂ hnd hm₂ hc₂ ho₂,
    fun k hk => applyMods_lookup_notmem mods ctx outs k hk⟩
  unfold submit_approval
  rw [hw]
  simp [hst, hd]

/-- Counterexample to C3 as stated: a MODIFIED response with
`modifications=None` is accepted (return `True`) by a reachable
AWAITING_APPROVAL workflow, which moves to EXECUTING; nothing validates the
non-empty-modifications requirement. -/
theorem claim_C3_counterexample :
    respMod.modifications = none ∧
    (submit_approval oAwaitTrace "w" respMod).1 = some true ∧
    (get_workflow (submit_approval oAwaitTrace "w" respMod).2 "w").map
        (fun w => w.current_state) = some WorkflowState.EXECUTING :=
  ⟨rfl, rfl, rfl⟩

/-- Witness for the amended C3 at concrete inputs: the orchestrator step,
and modification application overwriting `"value"` in the context and
`"report"` in the outputs while dropping `"unknown"`. -/
theorem claim_C3_witness :
    submit_approval [("w", wAwait1)] "w" respMod2 =
      (some true,
       assocSet [("w", wAwait1)] "w"
         { wAwait1 with
             approval_responses := wAwait1.approval_responses ++ [respMod2],
             current_state := .EXECUTING }) ∧
    (apply_modifications ctxW outsW modsW).1.map Prod.fst =
        ctxW.map Prod.fst ∧
    (apply_modifications ctxW outsW modsW).2.map Prod.fst =
        outsW.map Prod.fst ∧
    lookupA (apply_modifications ctxW outsW modsW).1 "value" =
        some (.int 10) ∧
    lookupA (apply_modifications ctxW outsW modsW).2 "report" =
        some (.str "final") ∧
    (∀ k, k ∉ modsW.map Prod.fst →
      lookupA (apply_modifications ctxW outsW modsW).1 k = lookupA ctxW k ∧
      lookupA (apply_modifications ctxW outsW modsW).2 k = lookupA outsW k) :=
  claim_C3_amended [("w", wAwait1)] "w" wAwait1 respMod2 rfl rfl rfl
    ctxW outsW modsW (by decide)
    "value" (.int 10) (by simp [modsW]) (by decide)
    "report" (.str "final") (by simp [modsW]) (by decide) (by decide)

theorem calculate_completion_eq_spec (s : ExecutionState) :
    calculate_completion s = specCompletion s := by
  unfold calculate_completion specCompletion
  rcases ha : s.api_calls.isEmpty with _ | _ <;>
    rcases hb : s.intermediate_outputs.isEmpty with _ | _ <;>
      rcases hc : s.decision_trace.isEmpty with _ | _ <;>
        · simp [ha, hb, hc]
          try ring_nf

/-- C8 as amended.  The reconciliation report's recommended payment is
`max(0, 100.0 × ratio − Σ resource_consumption)`: the ratio is the spec's
mean over non-empty contributors, but the base payout is the hard-coded
placeholder `100.0` (the workflow's escrow amount is not consulted) and the
only clamp is at 0 — there is no upper clamp to the escrow amount. -/
theorem claim_C8_amended (s : ExecutionState) :
    recommended_payment s =
      max 0 (100 * specCompletion s -
        (s.resource_consumption.map Prod.snd).sum) := by
  unfold recommended_payment calculate_partial_payment
  rw [calculate_completion_eq_spec]

/-- Counterexample to C8 as stated: for a workflow with escrow amount 50,
the claimed payment (clamped to `[0, 50]`) is 50, but the code recommends
100 — the placeholder base payout with no upper clamp. -/
theorem claim_C8_counterexample :
    recommended_payment sC8 = 100 ∧ claimedPayment 100 50 sC8 = 50 ∧
    (100 : ℚ) ≠ 50 := by
  refine ⟨?_, ?_, by norm_num⟩ <;>
    norm_num [recommended_payment, calculate_partial_payment,
      calculate_completion, claimedPayment, sC8]

/-! ## Claim C9 — no hash verification on artifact read -/

/-- C9 as amended.  `ArtifactStore.get` succeeds exactly when the URI has
the `saferun://artifacts/` scheme and a file named by the URI's last path
segment exists, and then returns the stored record as-is: no SHA-256 is
recomputed and no comparison with the recorded content hash takes place. -/
theorem claim_C9_amended (files : List (String × StoredRecord))
    (uri : String) (r : StoredRecord) :
    ArtifactStore.get files uri = .ok r ↔
      (strStartsWith uri "saferun://artifacts/" = true ∧
       lookupA files (lastSlashSegment uri) = some r) := by
  unfold ArtifactStore.get
  by_cases h : strStartsWith uri "saferun://artifacts/" = true
  · simp only [h, not_true, if_false, Bool.true_eq_false, if_neg,
      not_false_iff, true_and]
    cases hl : lookupA files (lastSlashSegment uri) with
    | none => simp
    | some rec0 =>
        constructor
        · intro he
          exact Except.ok.inj he ▸ rfl
        · intro he
          rw [he]
  · have h' : strStartsWith uri "saferun://artifacts/" = false :=
      Bool.not_eq_true _ ▸ (by simpa using h)
    simp [h']

/-- Counterexample to C9 as stated: reading an artifact whose stored content
hashes to something other than the recorded content hash succeeds and
returns the bytes — the mismatch is not detected, the read does not fail. -/
theorem claim_C9_counterexample :
    ArtifactStore.get [("deadbeef", recBad)] "saferun://artifacts/deadbeef" =
        .ok recBad ∧
    sha256Hex recBad.content ≠ recBad.content_hash := by
  refine ⟨rfl, by decide⟩

/-! ## Claim C5 — request/response pairing -/

theorem assocSet_map_fst_not_contains {α : Type} (m : List (String × α))
    (k : String) (v : α) (h : containsKey m k = false) :
    (assocSet m k v).map Prod.fst = m.map Prod.fst ++ [k] := by
  induction m with
  | nil => rfl
  | cons p rest ih =>
      obtain ⟨k', v'⟩ := p
      by_cases hk : k' = k
      · rw [containsKey, lookupA, if_pos hk] at h
        simp at h
      · have h' : containsKey rest k = false := by
          rwa [containsKey, lookupA, if_neg hk] at h
        simp [assocSet, hk, ih h']

theorem removeKey_map_fst {α : Type} (m : List (String × α)) (k : String) :
    (removeKey m k).map Prod.fst = (m.map Prod.fst).erase k := by
  induction m with
  | nil => rfl
  | cons p rest ih =>
      obtain ⟨k', v'⟩ := p
      by_cases h : k' = k <;>
        simp [removeKey, h, List.erase_cons, ih]

theorem supReach_inv {s : Supervisor} {created : List ApprovalRequest}
    (h : SupReach s created) : SupInv s created := by
  induction h with
  | init sid => exact ⟨List.nodup_nil, by simp, List.nodup_nil, by simp,
      List.nodup_nil⟩
  | create s created rid wid cid sid summary context t hstep hfresh ih =>
      obtain ⟨hpnd, hpsub, hhnd, hhist, hcnd⟩ := ih
      have hnotpend : containsKey s.pending_approvals rid = false := by
        rcases hb : containsKey s.pending_approvals rid with _ | _
        · rfl
        · exact absurd (hpsub rid ((containsKey_iff _ _).mp hb)) hfresh
      have hkeys : ((assocSet s.pending_approvals rid
            { request_id := rid, workflow_id := wid, checkpoint_id := cid,
              snapshot_id := sid, summary := summary, context := context,
              created_at := t,
              expires_at := none } : List (String × ApprovalRequest)).map
            Prod.fst) = s.pending_approvals.map Prod.fst ++ [rid] :=
        assocSet_map_fst_not_contains _ _ _ hnotpend
      have hcreated' : (created ++
          [(create_approval_request s rid wid cid sid summary context t).1]).map
            ApprovalRequest.request_id =
          created.map ApprovalRequest.request_id ++ [rid] := by
        simp [create_approval_request]
      refine ⟨?_, ?_, hhnd, ?_, ?_⟩
      · simp only [create_approval_request]
        simp only [hkeys, List.nodup_append]
        refine ⟨hpnd, List.nodup_singleton rid, ?_⟩
        intro x hx hx1
        rw [List.mem_singleton] at hx1
        exact hfresh (hx1 ▸ hpsub x hx)
      · intro k hk
        simp only [create_approval_request] at hk
        simp only [hkeys, List.mem_append] at hk
        rw [hcreated', List.mem_append]
        rcases hk with hk | hk
        · exact Or.inl (hpsub k hk)
        · exact Or.inr hk
      · intro rid' hr
        have h0 := hhist rid' hr
        constructor
        · rw [hcreated', List.mem_append]
          exact Or.inl h0.1
        · simp only [create_approval_request]
          simp only [hkeys, List.mem_append]
          rintro (hx | hx)
          · exact h0.2 hx
          · rw [List.mem_singleton] at hx
            exact hfresh (hx ▸ h0.1)
      · rw [hcreated']
        simp only [List.nodup_append]
        refine ⟨hcnd, List.nodup_singleton rid, ?_⟩
        intro x hx hx1
        rw [List.mem_singleton] at hx1
        exact hfresh (hx1 ▸ hx)
  | submit s created rid d rat approved_by mods t resp s' hstep heq ih =>
      obtain ⟨hpnd, hpsub, hhnd, hhist, hcnd⟩ := ih
      by_cases hpend : containsKey s.pending_approvals rid = true
      · unfold submit_decision at heq
        rw [if_neg (not_not_intro hpend)] at heq
        obtain ⟨hresp, hs'⟩ := Prod.mk.injEq .. ▸ Except.ok.inj heq
        subst hresp; subst hs'
        have hrin : rid ∈ created.map ApprovalRequest.request_id :=
          hpsub rid ((containsKey_iff _ _).mp hpend)
        have hrnothist : rid ∉
            s.approval_history.map ApprovalResponse.request_id := by
          intro hmem
          exact (hhist rid hmem).2 ((containsKey_iff _ _).mp hpend)
        have hremkeys : ((removeKey s.pending_approvals rid).map Prod.fst) =
            (s.pending_approvals.map Prod.fst).erase rid :=
          removeKey_map_fst _ _
        refine ⟨?_, ?_, ?_, ?_, hcnd⟩
        · rw [hremkeys]
          exact hpnd.erase rid
        · intro k hk
          rw [hremkeys] at hk
          exact hpsub k (List.mem_of_mem_erase hk)
        · simp only [List.map_append, List.map_cons, List.map_nil,
            List.nodup_append]
          refine ⟨hhnd, List.nodup_singleton _, ?_⟩
          intro x hx hx1
          rw [List.mem_singleton] at hx1
          exact hrnothist (hx1 ▸ hx)
        · intro rid' hr
          simp only [List.map_append, List.map_cons, List.map_nil,
            List.mem_append] at hr
          rcases hr with hr | hr
          · have h0 := hhist rid' hr
            refine ⟨h0.1, ?_⟩
            rw [hremkeys]
            intro hmem
            exact h0.2 (List.mem_of_mem_erase hmem)
          · rw [List.mem_singleton] at hr
            subst hr
            refine ⟨hrin, ?_⟩
            rw [hremkeys]
            exact hpnd.not_mem_erase
      · unfold submit_decision at heq
        rw [if_pos hpend] at heq
        simp at heq

/-- C5 as amended.  The orchestrator itself appends responses without any
request matching (see the counterexample); the pairing claim holds for the
supervisor path: in every supervisor state reachable by
`create_approval_request`/`submit_decision`, every recorded response
references a previously created request by id, response ids are pairwise
distinct (at most one response per request), and created request ids are
pairwise distinct (each response matches exactly one prior request). -/
theorem claim_C5_amended (s : Supervisor) (created : List ApprovalRequest)
    (h : SupReach s created) :
    (∀ resp ∈ s.approval_history,
      ∃ req ∈ created, resp.request_id = req.request_id) ∧
    (s.approval_history.map ApprovalResponse.request_id).Nodup ∧
    (created.map ApprovalRequest.request_id).Nodup := by
  have hi := supReach_inv h
  refine ⟨?_, hi.2.2.1, hi.2.2.2.2⟩
  intro resp hr
  have hmem : resp.request_id ∈ created.map ApprovalRequest.request_id :=
    (hi.2.2.2.1 resp.request_id
      (List.mem_map_of_mem ApprovalResponse.request_id hr)).1
  obtain ⟨req, hreq, he⟩ := List.mem_map.mp hmem
  exact ⟨req, hreq, he.symm⟩

/-- Witness for the amended C5: a concrete create-then-submit trace. -/
theorem claim_C5_witness :
    (∀ resp ∈ sup2.approval_history,
      ∃ req ∈ [supReq1], resp.request_id = req.request_id) ∧
    (sup2.approval_history.map ApprovalResponse.request_id).Nodup ∧
    (([supReq1]).map ApprovalRequest.request_id).Nodup :=
  claim_C5_amended sup2 [supReq1]
    (.submit sup1 [supReq1] "r1" .APPROVED "ok" "alice" none "t2" supResp1
      sup2
      (.create ⟨"sup", [], []⟩ [] "r1" "w" "cp" "snap" "sum" [] "t1"
        (.init "sup") (by simp))
      rfl)

/-- Counterexample to C5 as stated: `submit_approval` appends a response
whose request id matches no approval request of the workflow, so the
reachable state has a response (id `"ghost"`) referencing no earlier
request — the orchestrator validates nothing. -/
theorem claim_C5_counterexample :
    (get_workflow (submit_approval oAwaitTrace "w" respGhost).2 "w").map
        (fun w => w.approval_responses.map (fun r => r.request_id)) =
      some ["ghost"] ∧
    (get_workflow (submit_approval oAwaitTrace "w" respGhost).2 "w").map
        (fun w => w.approval_requests.map (fun r => r.request_id)) =
      some ["r1"] ∧
    "ghost" ∉ ["r1"] :=
  ⟨rfl, rfl, by decide⟩

/-! ## Claim C6 — hash (in)stability under map insertion order -/

theorem lookupA_perm {α : Type} {l₁ l₂ : List (String × α)}
    (h : l₁.Perm l₂) :
    (l₁.map Prod.fst).Nodup → ∀ k, lookupA l₁ k = lookupA l₂ k := by
  induction h with
  | nil => intro _ k; rfl
  | cons x h ih =>
      intro hnd k
      obtain ⟨a, b⟩ := x
      rw [List.map_cons] at hnd
      have hnd' := (List.nodup_cons.mp hnd).2
      by_cases hk : a = k <;> simp [lookupA, hk, ih hnd' k]
  | swap x y l =>
      intro hnd k
      obtain ⟨a, b⟩ := x
      obtain ⟨c, d⟩ := y
      rw [List.map_cons, List.map_cons] at hnd
      have hcm := (List.nodup_cons.mp hnd).1
      have hne : c ≠ a := fun he => hcm (by rw [he]; exact List.mem_cons_self _ _)
      by_cases hc : c = k
      · have ha : ¬ a = k := fun he => hne (hc.trans he.symm)
        simp [lookupA, hc, ha]
      · by_cases ha : a = k <;> simp [lookupA, hc, ha]
  | trans h₁ h₂ ih₁ ih₂ =>
      intro hnd k
      exact (ih₁ hnd k).trans
        (ih₂ (((h₁.map Prod.fst).nodup_iff).mp hnd) k)

theorem sortObjD_perm {α : Type} (dflt : α) {l₁ l₂ : List (String × α)}
    (h : l₁.Perm l₂) (hnd : (l₁.map Prod.fst).Nodup) :
    sortObjD dflt l₁ = sortObjD dflt l₂ := by
  unfold sortObjD
  have hsort : List.insertionSort (· ≤ ·) (l₁.map Prod.fst) =
      List.insertionSort (· ≤ ·) (l₂.map Prod.fst) :=
    List.eq_of_perm_of_sorted
      ((List.perm_insertionSort _ _).trans ((h.map Prod.fst).trans
        (List.perm_insertionSort _ _).symm))
      (List.sorted_insertionSort _ _) (List.sorted_insertionSort _ _)
  have hfun : (fun k => (k, (lookupA l₁ k).getD dflt)) =
      (fun k => (k, (lookupA l₂ k).getD dflt)) :=
    funext fun k => by rw [lookupA_perm h hnd k]
  rw [hsort, hfun]

/-- C6 as amended.  The implementation serializes mapping keys in insertion
order (`json.dumps` without `sort_keys`), so `compute_state_hash` is NOT
invariant under map insertion order (see the counterexample).  For the
serialization the spec describes — keys in sorted order, modelled by
`serialize_state_sorted` — the hash is invariant: permuting the insertion
order of agent memory, intermediate outputs and resource consumption (with
distinct keys, other fields equal) leaves `compute_state_hash_sorted`
unchanged. -/
theorem claim_C6_amended (s₁ s₂ : ExecutionState)
    (hcid : s₁.checkpoint_id = s₂.checkpoint_id)
    (hts : s₁.timestamp = s₂.timestamp)
    (hmem : s₁.agent_memory.Perm s₂.agent_memory)
    (hmemnd : (s₁.agent_memory.map Prod.fst).Nodup)
    (hapi : s₁.api_calls = s₂.api_calls)
    (hout : s₁.intermediate_outputs.Perm s₂.intermediate_outputs)
    (houtnd : (s₁.intermediate_outputs.map Prod.fst).Nodup)
    (hdec : s₁.decision_trace = s₂.decision_trace)
    (hrc : s₁.resource_consumption.Perm s₂.resource_consumption)
    (hrcnd : (s₁.resource_consumption.map Prod.fst).Nodup) :
    compute_state_hash_sorted s₁ = compute_state_hash_sorted s₂ := by
  unfold compute_state_hash_sorted serialize_state_sorted
  rw [hcid, hts, hapi, hdec, sortObjD_perm JVal.null hmem hmemnd,
    sortObjD_perm JVal.null hout houtnd, sortObjD_perm 0 hrc hrcnd]

/-- Witness for the amended C6: the two-key agent memory in both insertion
orders hashes identically under the sorted-keys serialization. -/
theorem claim_C6_witness :
    compute_state_hash_sorted (esMem [("a", .int 0), ("b", .int 1)]) =
      compute_state_hash_sorted (esMem [("b", .int 1), ("a", .int 0)]) :=
  claim_C6_amended (esMem [("a", .int 0), ("b", .int 1)])
    (esMem [("b", .int 1), ("a", .int 0)])
    rfl rfl (List.Perm.swap ("b", JVal.int 1) ("a", JVal.int 0) [])
    (by decide) rfl (List.Perm.nil) (by decide) rfl (List.Perm.nil)
    (by decide)

/-- Sanity anchor: the hash of the swapped-insertion-order state, as
computed by CPython (`json.dumps` without `sort_keys` keeps `"b"` first). -/
theorem compute_state_hash_sample_swapped :
    compute_state_hash (esMem [("b", .int 1), ("a", .int 0)]) =
      "8c8776c2f6e483c675a66d8e9825ffa7e60d37eea011699be811ca13dc3f82de" := by
  decide

/-- Counterexample to C6 as stated: two states whose agent memories are
permutations of one another (all other fields equal) have different content
hashes — `serialize_state` does not sort mapping keys, so the hash depends
on insertion order. -/
theorem claim_C6_counterexample :
    (esMem [("a", .int 0), ("b", .int 1)]).agent_memory.Perm
      (esMem [("b", .int 1), ("a", .int 0)]).agent_memory ∧
    compute_state_hash (esMem [("a", .int 0), ("b", .int 1)]) ≠
      compute_state_hash (esMem [("b", .int 1), ("a", .int 0)]) := by
  constructor
  · exact List.Perm.swap ("b", JVal.int 1) ("a", JVal.int 0) []
  · rw [compute_state_hash_sample, compute_state_hash_sample_swapped]
    decide

end SafeRun
